import Mathlib

/-!
Verification model of the `mcp-server-gsc` OAuth2 credential lifecycle and
configuration resolver.

The TypeScript sources are shallowly embedded:

* `src/cli.ts` — `parseCliOptions`, `mergeConfig`, `validateConfig` become pure
  Lean functions over an `CliOptions` structure in which an absent optional
  field is `none`.
* `src/oauth2-manager.ts` — token persistence (`saveTokens` via
  `JSON.stringify(tokens, null, 2)`, `loadTokens` via `JSON.parse`), the
  redirect-listener request handler inside `startAuthFlow`, and
  `getAuthClient` with its expiry-triggered refresh.  The filesystem is a
  single optional file content, the JavaScript builtins `JSON.stringify` /
  `JSON.parse` are modelled concretely (`saveTokensContents`, `parseJson`),
  and JavaScript truthiness is modelled explicitly where the source relies on
  it (`if (error)`, `if (!code)`, `tokens.expiry_date && ...`, `a || b`).
* `src/index.ts` — the divergent persistence variant that writes only the bare
  refresh-token string (`saveTokensIndexVariant` / `loadTokensIndexVariant`).
-/

namespace GscMcp

/-- The persisted token record (`interface OAuth2Tokens`).  Every field is
optional at runtime: the source casts untyped provider responses into this
shape without validation, and `JSON.stringify` simply drops absent fields.
Field order is the interface declaration order, which is the insertion order
`JSON.stringify` serializes. -/
structure OAuth2Tokens where
  access_token : Option String
  refresh_token : Option String
  scope : Option String
  token_type : Option String
  expiry_date : Option Int
deriving DecidableEq, Repr

/-- JSON values as produced by `JSON.parse`.  Numbers are modelled as exact
rationals (JSON integer/fraction/exponent numerals). -/
inductive Json where
  | null : Json
  | bool (b : Bool) : Json
  | num (q : ℚ) : Json
  | str (s : String) : Json
  | arr (elems : List Json) : Json
  | obj (fields : List (String × Json)) : Json

/-- Decimal digit to character. -/
def digitChar : Nat → Char
  | 0 => '0'
  | 1 => '1'
  | 2 => '2'
  | 3 => '3'
  | 4 => '4'
  | 5 => '5'
  | 6 => '6'
  | 7 => '7'
  | 8 => '8'
  | 9 => '9'
  | _ => '*'

/-- Hexadecimal digit to character, lowercase as emitted by `JSON.stringify`
for control-character escapes. -/
def hexChar : Nat → Char
  | 0 => '0'
  | 1 => '1'
  | 2 => '2'
  | 3 => '3'
  | 4 => '4'
  | 5 => '5'
  | 6 => '6'
  | 7 => '7'
  | 8 => '8'
  | 9 => '9'
  | 10 => 'a'
  | 11 => 'b'
  | 12 => 'c'
  | 13 => 'd'
  | 14 => 'e'
  | 15 => 'f'
  | _ => '*'

/-- Decimal digits of a natural number, fuel-indexed for structural
recursion. -/
def natDigitsAux : Nat → Nat → List Char
  | 0, _ => []
  | fuel + 1, n =>
    if n < 10 then [digitChar n]
    else natDigitsAux fuel (n / 10) ++ [digitChar (n % 10)]

/-- Decimal digits of a natural number, most significant first. -/
def natDigits (n : Nat) : List Char := natDigitsAux (n + 1) n

/-- Decimal representation of an integer, as `JSON.stringify` prints the
integral `expiry_date` values. -/
def intChars (n : Int) : List Char :=
  if n < 0 then '-' :: natDigits n.natAbs else natDigits n.toNat

/-- One character of the `JSON.stringify` string-escaping scheme. -/
def escapeChar (c : Char) : List Char :=
  if c = '"' then ['\\', '"']
  else if c = '\\' then ['\\', '\\']
  else if c = '\x08' then ['\\', 'b']
  else if c = '\t' then ['\\', 't']
  else if c = '\n' then ['\\', 'n']
  else if c = '\x0c' then ['\\', 'f']
  else if c = '\r' then ['\\', 'r']
  else if c.toNat < 32 then
    ['\\', 'u', '0', '0', hexChar (c.toNat / 16), hexChar (c.toNat % 16)]
  else [c]

/-- `JSON.stringify` escaping of a whole string body. -/
def escapeString (s : String) : List Char :=
  s.data.flatMap escapeChar

/-- A serialized string literal, including the surrounding quotes. -/
def quotedChars (s : String) : List Char :=
  '"' :: escapeString s ++ ['"']

/-- Serialized characters of one primitive token-record field value. -/
def primChars : Json → List Char
  | Json.str s => quotedChars s
  | Json.num q => intChars q.num
  | Json.bool true => ['t', 'r', 'u', 'e']
  | Json.bool false => ['f', 'a', 'l', 's', 'e']
  | Json.null => ['n', 'u', 'l', 'l']
  | Json.arr _ => []
  | Json.obj _ => []

/-- One `"key": value` member as serialized inside the token object. -/
def memberChars (f : String × Json) : List Char :=
  quotedChars f.1 ++ ':' :: ' ' :: primChars f.2

/-- Join serialized members with a separator. -/
def joinSep (sep : List Char) : List (List Char) → List Char
  | [] => []
  | [l] => l
  | l :: l2 :: ls => l ++ sep ++ joinSep sep (l2 :: ls)

/-- Interface field names of `OAuth2Tokens`. -/
def keyAccessToken : String := "access_token"

/-- Interface field name `refresh_token`. -/
def keyRefreshToken : String := "refresh_token"

/-- Interface field name `scope`. -/
def keyScope : String := "scope"

/-- Interface field name `token_type`. -/
def keyTokenType : String := "token_type"

/-- Interface field name `expiry_date`. -/
def keyExpiryDate : String := "expiry_date"

/-- The field list of a token record, in interface declaration order, with
absent (`undefined`) fields dropped exactly as `JSON.stringify` drops them. -/
def tokensFields (t : OAuth2Tokens) : List (String × Json) :=
  (t.access_token.map (fun s => (keyAccessToken, Json.str s))).toList ++
  (t.refresh_token.map (fun s => (keyRefreshToken, Json.str s))).toList ++
  (t.scope.map (fun s => (keyScope, Json.str s))).toList ++
  (t.token_type.map (fun s => (keyTokenType, Json.str s))).toList ++
  (t.expiry_date.map (fun n => (keyExpiryDate, Json.num (n : ℚ)))).toList

/-- The JSON value a token record serializes to and parses back as. -/
def tokensToJson (t : OAuth2Tokens) : Json :=
  Json.obj (tokensFields t)

/-- Characters of `JSON.stringify(tokens, null, 2)`: two-space indent, one
member per line; the empty object renders as `{}`. -/
def saveTokensChars (t : OAuth2Tokens) : List Char :=
  match (tokensFields t).map memberChars with
  | [] => ['\x7b', '\x7d']
  | ls =>
    '\x7b' :: '\n' :: ' ' :: ' ' ::
      joinSep [',', '\n', ' ', ' '] ls ++ ['\n', '\x7d']

/-- `saveTokens` file contents: `JSON.stringify(tokens, null, 2)`
(src/oauth2-manager.ts). -/
def saveTokensContents (t : OAuth2Tokens) : String :=
  String.mk (saveTokensChars t)

/-- JSON whitespace. -/
def isWs (c : Char) : Bool :=
  c = ' ' || c = '\n' || c = '\t' || c = '\r'

/-- Skip leading JSON whitespace. -/
def skipWs : List Char → List Char
  | [] => []
  | c :: cs => if isWs c then skipWs cs else c :: cs

/-- Decimal digit test. -/
def isDig (c : Char) : Bool :=
  48 ≤ c.toNat && c.toNat ≤ 57

/-- Value of a hexadecimal digit character. -/
def hexVal (c : Char) : Option Nat :=
  if 48 ≤ c.toNat ∧ c.toNat ≤ 57 then some (c.toNat - 48)
  else if 97 ≤ c.toNat ∧ c.toNat ≤ 102 then some (c.toNat - 87)
  else if 65 ≤ c.toNat ∧ c.toNat ≤ 70 then some (c.toNat - 55)
  else none

/-- Single-character JSON string escapes. -/
def unescapeChar (c : Char) : Option Char :=
  if c = '"' then some '"'
  else if c = '\\' then some '\\'
  else if c = '/' then some '/'
  else if c = 'b' then some '\x08'
  else if c = 'f' then some '\x0c'
  else if c = 'n' then some '\n'
  else if c = 'r' then some '\r'
  else if c = 't' then some '\t'
  else none

/-- Parse the body of a JSON string literal (the opening quote already
consumed), returning the decoded characters and the rest of the input after
the closing quote.  Raw control characters and bad escapes are rejected, as
`JSON.parse` rejects them. -/
def parseStrChars : List Char → Option (List Char × List Char)
  | [] => none
  | c :: rest =>
    if c = '"' then some ([], rest)
    else if c = '\\' then
      match rest with
      | [] => none
      | e :: rest2 =>
        if e = 'u' then
          match rest2 with
          | h1 :: h2 :: h3 :: h4 :: rest3 =>
            match hexVal h1, hexVal h2, hexVal h3, hexVal h4 with
            | some a, some b, some c2, some d =>
              match parseStrChars rest3 with
              | some (cs, r) =>
                some (Char.ofNat (((a * 16 + b) * 16 + c2) * 16 + d) :: cs, r)
              | none => none
            | _, _, _, _ => none
          | _ => none
        else
          match unescapeChar e with
          | some u =>
            match parseStrChars rest2 with
            | some (cs, r) => some (u :: cs, r)
            | none => none
          | none => none
    else if c.toNat < 32 then none
    else
      match parseStrChars rest with
      | some (cs, r) => some (c :: cs, r)
      | none => none

/-- Consume a maximal run of decimal digits, folding them onto `acc`. -/
def digitsAux (acc : Nat) : List Char → Nat × List Char
  | [] => (acc, [])
  | c :: cs =>
    if isDig c then digitsAux (acc * 10 + (c.toNat - 48)) cs else (acc, c :: cs)

/-- Parse a JSON integer part: at least one digit, no leading zero. -/
def parseNat : List Char → Option (Nat × List Char)
  | [] => none
  | c :: rest =>
    if isDig c then
      if c == '0' && rest.head?.any isDig then none
      else some (digitsAux 0 (c :: rest))
    else none

/-- Parse a run of digits where leading zeros are allowed (fraction and
exponent parts), returning the value and the digit count. -/
def parseDigitRun : List Char → Option (Nat × Nat × List Char)
  | [] => none
  | c :: rest =>
    if isDig c then
      let r := digitsAux 0 (c :: rest)
      some (r.1, (c :: rest).length - r.2.length, r.2)
    else none

/-- Parse the optional fraction part of a JSON number. -/
def parseFrac (i : Nat) : List Char → Option (ℚ × List Char)
  | [] => some ((i : ℚ), [])
  | c :: rest =>
    if c = '.' then
      match parseDigitRun rest with
      | some (f, k, r) => some ((i : ℚ) + (f : ℚ) / ((10 : ℚ) ^ k), r)
      | none => none
    else some ((i : ℚ), c :: rest)

/-- Parse the signed digit run after an exponent marker. -/
def parseExpTail (q : ℚ) : List Char → Option (ℚ × List Char)
  | '-' :: r2 =>
    match parseDigitRun r2 with
    | some (e, _, r) => some (q / ((10 : ℚ) ^ e), r)
    | none => none
  | '+' :: r2 =>
    match parseDigitRun r2 with
    | some (e, _, r) => some (q * ((10 : ℚ) ^ e), r)
    | none => none
  | r2 =>
    match parseDigitRun r2 with
    | some (e, _, r) => some (q * ((10 : ℚ) ^ e), r)
    | none => none

/-- Parse the optional exponent part of a JSON number. -/
def parseExp (q : ℚ) : List Char → Option (ℚ × List Char)
  | [] => some (q, [])
  | c :: rest =>
    if c = 'e' ∨ c = 'E' then parseExpTail q rest
    else some (q, c :: rest)

/-- Parse an unsigned JSON number. -/
def parseUnsigned (cs : List Char) : Option (ℚ × List Char) :=
  match parseNat cs with
  | some (i, r1) =>
    match parseFrac i r1 with
    | some (q, r2) => parseExp q r2
    | none => none
  | none => none

/-- Parse a JSON number, sign included. -/
def parseNumber : List Char → Option (ℚ × List Char)
  | [] => none
  | c :: rest =>
    if c = '-' then
      match parseUnsigned rest with
      | some (q, r) => some (-q, r)
      | none => none
    else parseUnsigned (c :: rest)

mutual

/-- Fuel-indexed recursive-descent JSON value parser mirroring `JSON.parse`. -/
def parseValue : Nat → List Char → Option (Json × List Char)
  | 0, _ => none
  | fuel + 1, cs =>
    match skipWs cs with
    | [] => none
    | c :: rest =>
      if c = '\x7b' then parseObjBody fuel (skipWs rest)
      else if c = '[' then parseArrBody fuel (skipWs rest)
      else if c = '"' then
        match parseStrChars rest with
        | some (l, r) => some (Json.str (String.mk l), r)
        | none => none
      else if c = 'n' then
        match rest with
        | 'u' :: 'l' :: 'l' :: r => some (Json.null, r)
        | _ => none
      else if c = 't' then
        match rest with
        | 'r' :: 'u' :: 'e' :: r => some (Json.bool true, r)
        | _ => none
      else if c = 'f' then
        match rest with
        | 'a' :: 'l' :: 's' :: 'e' :: r => some (Json.bool false, r)
        | _ => none
      else
        match parseNumber (c :: rest) with
        | some (q, r) => some (Json.num q, r)
        | none => none

/-- Parse an object body after the opening brace (whitespace skipped). -/
def parseObjBody : Nat → List Char → Option (Json × List Char)
  | 0, _ => none
  | fuel + 1, cs =>
    match cs with
    | [] =>
      match parseMembers fuel [] with
      | some (fs, r) => some (Json.obj fs, r)
      | none => none
    | c :: rest =>
      if c = '\x7d' then some (Json.obj [], rest)
      else
        match parseMembers fuel (c :: rest) with
        | some (fs, r) => some (Json.obj fs, r)
        | none => none

/-- Parse one or more `"key": value` members followed by the closing brace. -/
def parseMembers : Nat → List Char → Option (List (String × Json) × List Char)
  | 0, _ => none
  | fuel + 1, cs =>
    match cs with
    | '"' :: rest =>
      match parseStrChars rest with
      | some (kcs, r1) =>
        match skipWs r1 with
        | c1 :: r2 =>
          if c1 = ':' then
            match parseValue fuel r2 with
            | some (v, r3) =>
              match skipWs r3 with
              | c2 :: r4 =>
                if c2 = ',' then
                  match parseMembers fuel (skipWs r4) with
                  | some (fs, r) => some ((String.mk kcs, v) :: fs, r)
                  | none => none
                else if c2 = '\x7d' then some ([(String.mk kcs, v)], r4)
                else none
              | [] => none
            | none => none
          else none
        | [] => none
      | none => none
    | _ => none

/-- Parse array elements after the opening bracket (whitespace skipped). -/
def parseArrBody : Nat → List Char → Option (Json × List Char)
  | 0, _ => none
  | fuel + 1, cs =>
    match cs with
    | [] =>
      match parseElems fuel [] with
      | some (es, r) => some (Json.arr es, r)
      | none => none
    | c :: rest =>
      if c = ']' then some (Json.arr [], rest)
      else
        match parseElems fuel (c :: rest) with
        | some (es, r) => some (Json.arr es, r)
        | none => none

/-- Parse one or more array elements followed by the closing bracket. -/
def parseElems : Nat → List Char → Option (List Json × List Char)
  | 0, _ => none
  | fuel + 1, cs =>
    match parseValue fuel cs with
    | some (v, r1) =>
      match skipWs r1 with
      | c :: r2 =>
        if c = ',' then
          match parseElems fuel r2 with
          | some (es, r) => some (v :: es, r)
          | none => none
        else if c = ']' then some ([v], r2)
        else none
      | [] => none
    | none => none

end

/-- `JSON.parse`: parse one value and require only whitespace after it. -/
def parseJson (s : String) : Option Json :=
  match parseValue (s.length + 1) s.data with
  | some (j, rest) => if skipWs rest = [] then some j else none
  | none => none

theorem mk_data (s : String) : String.mk s.data = s := rfl

theorem digitChar_isDig {d : Nat} (h : d < 10) : isDig (digitChar d) = true := by
  interval_cases d <;> decide

theorem digitChar_sub {d : Nat} (h : d < 10) : (digitChar d).toNat - 48 = d := by
  interval_cases d <;> decide

theorem digitChar_ne_zero {d : Nat} (h1 : 1 ≤ d) (h : d < 10) :
    digitChar d ≠ '0' := by
  interval_cases d <;> decide

theorem hexChar_val {d : Nat} (h : d < 16) : hexVal (hexChar d) = some d := by
  interval_cases d <;> decide

theorem natDigitsAux_irrel : ∀ (n f1 f2 : Nat), n < f1 → n < f2 →
    natDigitsAux f1 n = natDigitsAux f2 n := by
  intro n
  induction n using Nat.strong_induction_on with
  | _ n ih =>
    intro f1 f2 h1 h2
    match f1, f2 with
    | g1 + 1, g2 + 1 =>
      rw [natDigitsAux, natDigitsAux]
      by_cases hn : n < 10
      · rw [if_pos hn, if_pos hn]
      · rw [if_neg hn, if_neg hn,
          ih (n / 10) (by omega) g1 g2 (by omega) (by omega)]

theorem natDigits_eq (n : Nat) : natDigits n =
    if n < 10 then [digitChar n]
    else natDigits (n / 10) ++ [digitChar (n % 10)] := by
  rw [natDigits, natDigitsAux]
  by_cases hn : n < 10
  · rw [if_pos hn, if_pos hn]
  · rw [if_neg hn, if_neg hn, natDigits,
      natDigitsAux_irrel (n / 10) n (n / 10 + 1) (by omega) (by omega)]

theorem natDigits_ne_nil (n : Nat) : natDigits n ≠ [] := by
  rw [natDigits_eq]
  split
  · simp
  · simp

theorem natDigits_all_dig (n : Nat) : ∀ c ∈ natDigits n, isDig c = true := by
  rw [natDigits_eq]
  split
  · next h => simpa using digitChar_isDig h
  · next h =>
    intro c hc
    rcases List.mem_append.mp hc with h1 | h1
    · exact natDigits_all_dig (n / 10) c h1
    · simp only [List.mem_singleton] at h1
      subst h1
      exact digitChar_isDig (Nat.mod_lt _ (by omega))
termination_by n
decreasing_by exact Nat.div_lt_self (by omega) (by omega)

theorem natDigits_pos_head (n : Nat) (h1 : 1 ≤ n) :
    ∀ t, natDigits n ≠ '0' :: t := by
  rw [natDigits_eq]
  split
  · next h =>
    intro t heq
    injection heq with hc _
    exact digitChar_ne_zero h1 h hc
  · next h =>
    intro t heq
    rcases hnd : natDigits (n / 10) with _ | ⟨c, t'⟩
    · exact natDigits_ne_nil _ hnd
    · rw [hnd, List.cons_append] at heq
      injection heq with hc _
      exact natDigits_pos_head (n / 10)
        ((Nat.one_le_div_iff (by omega)).mpr (by omega)) t' (by rw [hnd, hc])
termination_by n
decreasing_by exact Nat.div_lt_self (by omega) (by omega)

theorem digitsAux_step {c : Char} (h : isDig c = true) (acc : Nat) (cs : List Char) :
    digitsAux acc (c :: cs) = digitsAux (acc * 10 + (c.toNat - 48)) cs := by
  simp [digitsAux, h]

theorem digitsAux_stop {cs : List Char} (h : cs.head?.any isDig = false) (acc : Nat) :
    digitsAux acc cs = (acc, cs) := by
  cases cs with
  | nil => rfl
  | cons c t =>
    simp only [List.head?_cons, Option.any_some] at h
    simp [digitsAux, h]

theorem digitsAux_append (n : Nat) : ∀ acc rest,
    digitsAux acc (natDigits n ++ rest) =
      digitsAux (acc * 10 ^ (natDigits n).length + n) rest := by
  intro acc rest
  rw [natDigits_eq]
  split
  · next h =>
    rw [List.singleton_append, digitsAux_step (digitChar_isDig h), digitChar_sub h]
    simp
  · next h =>
    rw [List.append_assoc, digitsAux_append (n / 10), List.singleton_append,
      digitsAux_step (digitChar_isDig (Nat.mod_lt _ (by omega))),
      digitChar_sub (Nat.mod_lt _ (by omega))]
    have hlen : (natDigits (n / 10) ++ [digitChar (n % 10)]).length =
        (natDigits (n / 10)).length + 1 := by simp
    rw [hlen, pow_succ]
    have harith : (acc * 10 ^ (natDigits (n / 10)).length + n / 10) * 10 + n % 10 =
        acc * (10 ^ (natDigits (n / 10)).length * 10) + n := by
      generalize 10 ^ (natDigits (n / 10)).length = k
      have := Nat.div_add_mod n 10
      calc (acc * k + n / 10) * 10 + n % 10
          = acc * (k * 10) + (n / 10 * 10 + n % 10) := by ring
        _ = acc * (k * 10) + n := by omega
    rw [harith]
termination_by n
decreasing_by exact Nat.div_lt_self (by omega) (by omega)

theorem parseNat_natDigits (n : Nat) (rest : List Char)
    (h : rest.head?.any isDig = false) :
    parseNat (natDigits n ++ rest) = some (n, rest) := by
  rcases hnd : natDigits n with _ | ⟨c, t⟩
  · exact absurd hnd (natDigits_ne_nil n)
  · have hdig : isDig c = true := natDigits_all_dig n c (by rw [hnd]; simp)
    have hguard : (c == '0' && (t ++ rest).head?.any isDig) = false := by
      by_cases hc : c = '0'
      · subst hc
        by_cases hn : 1 ≤ n
        · exact absurd hnd (natDigits_pos_head n hn t)
        · have hn0 : n = 0 := by omega
          subst hn0
          have h0 : natDigits 0 = ['0'] := by decide
          rw [h0] at hnd
          injection hnd with _ ht
          subst ht
          simpa using h
      · simp [hc]
    have hback : c :: (t ++ rest) = natDigits n ++ rest := by
      rw [hnd, List.cons_append]
    rw [List.cons_append, parseNat, if_pos hdig, if_neg (by rw [hguard]; simp),
      hback, digitsAux_append, digitsAux_stop h]
    simp

/-- The characters that may legally follow a serialized integer so that the
number parser stops exactly at the integer's end. -/
def numStop (cs : List Char) : Prop :=
  cs.head?.any (fun c => isDig c || c == '.' || c == 'e' || c == 'E') = false

theorem numStop_isDig {cs : List Char} (h : numStop cs) :
    cs.head?.any isDig = false := by
  cases cs with
  | nil => rfl
  | cons c t =>
    simp only [numStop, List.head?_cons, Option.any_some] at h
    simp only [List.head?_cons, Option.any_some]
    cases hd : isDig c <;> simp [hd] at h ⊢

theorem numStop_cons (c : Char) (X : List Char)
    (h : (isDig c || c == '.' || c == 'e' || c == 'E') = false) :
    numStop (c :: X) := by
  simp only [numStop, List.head?_cons, Option.any_some]
  exact h

theorem parseFrac_stop {cs : List Char} (h : numStop cs) (i : Nat) :
    parseFrac i cs = some ((i : ℚ), cs) := by
  cases cs with
  | nil => rfl
  | cons c t =>
    have hc : c ≠ '.' := by
      intro hc
      subst hc
      simp [numStop] at h
    rw [parseFrac, if_neg hc]

theorem parseExp_stop {cs : List Char} (h : numStop cs) (q : ℚ) :
    parseExp q cs = some (q, cs) := by
  cases cs with
  | nil => rfl
  | cons c t =>
    have hc : ¬(c = 'e' ∨ c = 'E') := by
      intro hc
      rcases hc with hc | hc <;> (subst hc; simp [numStop] at h)
    rw [parseExp, if_neg hc]

theorem parseUnsigned_natDigits (n : Nat) (rest : List Char) (h : numStop rest) :
    parseUnsigned (natDigits n ++ rest) = some ((n : ℚ), rest) := by
  rw [parseUnsigned, parseNat_natDigits n rest (numStop_isDig h)]
  dsimp only
  rw [parseFrac_stop h]
  dsimp only
  rw [parseExp_stop h]

theorem isDig_toNat {c : Char} (h : isDig c = true) :
    48 ≤ c.toNat ∧ c.toNat ≤ 57 := by
  simp only [isDig, Bool.and_eq_true, decide_eq_true_eq] at h
  omega

theorem parseNumber_intChars (i : Int) (rest : List Char) (h : numStop rest) :
    parseNumber (intChars i ++ rest) = some ((i : ℚ), rest) := by
  rw [intChars]
  split
  · next hneg =>
    rw [List.cons_append, parseNumber, if_pos rfl,
      parseUnsigned_natDigits _ _ h]
    dsimp only
    have hq : ((i.natAbs : ℚ)) = -(i : ℚ) := by
      rw [Int.cast_natAbs, Int.cast_abs]
      exact abs_of_neg (by exact_mod_cast hneg)
    rw [hq, neg_neg]
  · next hpos =>
    rcases hnd : natDigits i.toNat with _ | ⟨c, t⟩
    · exact absurd hnd (natDigits_ne_nil _)
    · have hdig : isDig c = true := natDigits_all_dig _ c (by rw [hnd]; simp)
      have hc : c ≠ '-' := by
        intro hc
        subst hc
        have := isDig_toNat hdig
        simp at this
      rw [List.cons_append, parseNumber, if_neg hc, ← List.cons_append, ← hnd,
        parseUnsigned_natDigits _ _ h]
      have h0 : (0 : ℤ) ≤ i := by omega
      have h1 : ((i.toNat : ℤ)) = i := Int.toNat_of_nonneg h0
      have hq : ((i.toNat : ℚ)) = (i : ℚ) := by exact_mod_cast h1
      rw [hq]

theorem skipWs_cons {c : Char} {cs : List Char} (h : isWs c = false) :
    skipWs (c :: cs) = c :: cs := by
  simp [skipWs, h]

theorem skipWs_ws {c : Char} {cs : List Char} (h : isWs c = true) :
    skipWs (c :: cs) = skipWs cs := by
  simp [skipWs, h]

theorem parseStr_twochar (e u : Char) (hu : unescapeChar e = some u)
    (he : e ≠ 'u') (X : List Char) :
    parseStrChars ('\\' :: e :: X) =
      match parseStrChars X with
      | some (cs, r) => some (u :: cs, r)
      | none => none := by
  rw [parseStrChars.eq_def]
  simp +decide [he, hu]

theorem parseStr_escape (l : List Char) : ∀ rest,
    parseStrChars (l.flatMap escapeChar ++ '"' :: rest) = some (l, rest) := by
  induction l with
  | nil =>
    intro rest
    rw [List.flatMap_nil, List.nil_append, parseStrChars.eq_def]
    dsimp only
    rw [if_pos rfl]
  | cons c t ih =>
    intro rest
    rw [List.flatMap_cons, List.append_assoc, escapeChar]
    split_ifs with h1 h2 h3 h4 h5 h6 h7 h8
    · subst h1
      rw [List.cons_append, List.cons_append, List.nil_append,
        parseStr_twochar '"' '"' (by decide) (by decide), ih]
    · subst h2
      rw [List.cons_append, List.cons_append, List.nil_append,
        parseStr_twochar '\\' '\\' (by decide) (by decide), ih]
    · subst h3
      rw [List.cons_append, List.cons_append, List.nil_append,
        parseStr_twochar 'b' '\x08' (by decide) (by decide), ih]
    · subst h4
      rw [List.cons_append, List.cons_append, List.nil_append,
        parseStr_twochar 't' '\t' (by decide) (by decide), ih]
    · subst h5
      rw [List.cons_append, List.cons_append, List.nil_append,
        parseStr_twochar 'n' '\n' (by decide) (by decide), ih]
    · subst h6
      rw [List.cons_append, List.cons_append, List.nil_append,
        parseStr_twochar 'f' '\x0c' (by decide) (by decide), ih]
    · subst h7
      rw [List.cons_append, List.cons_append, List.nil_append,
        parseStr_twochar 'r' '\r' (by decide) (by decide), ih]
    · simp only [List.cons_append, List.nil_append]
      rw [parseStrChars, if_neg (by decide), if_pos rfl]
      rw [show hexVal '0' = some 0 by decide,
        hexChar_val (show c.toNat / 16 < 16 by omega),
        hexChar_val (show c.toNat % 16 < 16 by omega)]
      rw [ih]
      dsimp only
      rw [show ((0 * 16 + 0) * 16 + c.toNat / 16) * 16 + c.toNat % 16 = c.toNat
          by omega,
        Char.ofNat_toNat, if_pos rfl]
    · simp only [List.cons_append, List.nil_append]
      rw [parseStrChars.eq_def]
      dsimp only
      rw [if_neg h1, if_neg h2, if_neg h8, ih]

/-- The primitive JSON shapes a serialized token-record field can take. -/
def primOk : Json → Prop
  | Json.str _ => True
  | Json.num q => q.den = 1
  | _ => False

theorem isDig_facts {c : Char} (h : isDig c = true) :
    isWs c = false ∧ c ≠ '\x7b' ∧ c ≠ '[' ∧ c ≠ '"' ∧ c ≠ 'n' ∧ c ≠ 't' ∧
      c ≠ 'f' := by
  have hb := isDig_toNat h
  refine ⟨?_, ?_, ?_, ?_, ?_, ?_, ?_⟩
  · cases hws : isWs c
    · rfl
    · simp only [isWs, Bool.or_eq_true, decide_eq_true_eq] at hws
      rcases hws with ((h1 | h1) | h1) | h1 <;> (subst h1; revert hb; decide)
  all_goals intro heq; subst heq; revert hb; decide

theorem intChars_shape (i : Int) :
    ∃ c t, intChars i = c :: t ∧ isWs c = false ∧ c ≠ '\x7b' ∧ c ≠ '[' ∧
      c ≠ '"' ∧ c ≠ 'n' ∧ c ≠ 't' ∧ c ≠ 'f' := by
  rw [intChars]
  split
  · exact ⟨'-', _, rfl, by decide, by decide, by decide, by decide, by decide,
      by decide, by decide⟩
  · rcases hnd : natDigits i.toNat with _ | ⟨c, t⟩
    · exact absurd hnd (natDigits_ne_nil _)
    · have hdig : isDig c = true := natDigits_all_dig _ c (by rw [hnd]; simp)
      obtain ⟨w1, w2, w3, w4, w5, w6, w7⟩ := isDig_facts hdig
      exact ⟨c, t, rfl, w1, w2, w3, w4, w5, w6, w7⟩

theorem rat_of_den_one {q : ℚ} (h : q.den = 1) : ((q.num : ℚ)) = q := by
  have hq := Rat.num_div_den q
  rw [h] at hq
  simpa using hq

theorem parseValue_prim (fuel : Nat) (v : Json) (rest : List Char)
    (hv : primOk v) (hr : numStop rest) :
    parseValue (fuel + 1) (primChars v ++ rest) = some (v, rest) := by
  cases v with
  | str s =>
    rw [primChars, quotedChars, List.append_assoc, List.singleton_append,
      List.cons_append, parseValue, skipWs_cons (by decide)]
    dsimp only
    rw [if_neg (by decide), if_neg (by decide), if_pos rfl,
      show escapeString s = s.data.flatMap escapeChar from rfl,
      parseStr_escape]
  | num q =>
    obtain ⟨c, t, hct, w1, w2, w3, w4, w5, w6, w7⟩ := intChars_shape q.num
    rw [primChars, hct, List.cons_append, parseValue, skipWs_cons w1]
    dsimp only
    rw [if_neg w2, if_neg w3, if_neg w4, if_neg w5, if_neg w6, if_neg w7,
      ← List.cons_append, ← hct, parseNumber_intChars _ _ hr,
      rat_of_den_one hv]
  | null => exact absurd hv (by simp [primOk])
  | bool b => exact absurd hv (by simp [primOk])
  | arr l => exact absurd hv (by simp [primOk])
  | obj l => exact absurd hv (by simp [primOk])

theorem parseValue_ws (f : Nat) (c : Char) (h : isWs c = true) (cs : List Char) :
    parseValue (f + 1) (c :: cs) = parseValue (f + 1) cs := by
  rw [parseValue, parseValue, skipWs_ws h]

theorem memberChars_norm (f : String × Json) (X : List Char) :
    memberChars f ++ X =
      '"' :: (escapeString f.1 ++ '"' :: (':' :: ' ' :: (primChars f.2 ++ X))) := by
  simp [memberChars, quotedChars]

theorem joinSep_members_not_ws (g : String × Json) (gs : List (String × Json))
    (X : List Char) :
    skipWs (joinSep [',', '\n', ' ', ' '] ((g :: gs).map memberChars) ++ X) =
      joinSep [',', '\n', ' ', ' '] ((g :: gs).map memberChars) ++ X := by
  cases gs with
  | nil =>
    rw [List.map_cons, List.map_nil, joinSep, memberChars_norm,
      skipWs_cons (by decide)]
  | cons g2 t =>
    rw [List.map_cons, List.map_cons, joinSep, List.append_assoc,
      List.append_assoc, memberChars_norm, skipWs_cons (by decide)]

theorem parseMembers_layout (fs : List (String × Json)) :
    ∀ (fuel : Nat) (rest : List Char), fs ≠ [] → (∀ f ∈ fs, primOk f.2) →
    fs.length ≤ fuel →
    parseMembers (fuel + 1)
      (joinSep [',', '\n', ' ', ' '] (fs.map memberChars) ++
        '\n' :: '\x7d' :: rest) =
      some (fs, rest) := by
  induction fs with
  | nil => intro fuel rest hne _ _; exact absurd rfl hne
  | cons f t ih =>
    intro fuel rest _ hok hfuel
    have hokf : primOk f.2 := hok f (by simp)
    cases t with
    | nil =>
      obtain ⟨f1, rfl⟩ : ∃ f1, fuel = f1 + 1 := ⟨fuel - 1, by simp at hfuel; omega⟩
      rw [List.map_cons, List.map_nil, joinSep, memberChars_norm, parseMembers,
        show escapeString f.1 = f.1.data.flatMap escapeChar from rfl,
        parseStr_escape]
      dsimp only
      rw [skipWs_cons (by decide)]
      dsimp only
      rw [if_pos rfl, parseValue_ws f1 ' ' (by decide),
        parseValue_prim f1 f.2 _ hokf (numStop_cons '\n' _ (by decide))]
      dsimp only
      rw [skipWs_ws (by decide), skipWs_cons (by decide)]
      dsimp only
      rw [if_neg (by decide), if_pos rfl, mk_data]
    | cons f2 t2 =>
      have hlen : (f2 :: t2).length + 1 ≤ fuel := by
        simpa using hfuel
      obtain ⟨f1, rfl⟩ : ∃ f1, fuel = f1 + 1 := ⟨fuel - 1, by omega⟩
      rw [List.map_cons, List.map_cons, joinSep, List.append_assoc,
        List.append_assoc, memberChars_norm, parseMembers,
        show escapeString f.1 = f.1.data.flatMap escapeChar from rfl,
        parseStr_escape]
      dsimp only
      rw [skipWs_cons (by decide)]
      dsimp only
      rw [if_pos rfl, parseValue_ws f1 ' ' (by decide)]
      simp only [List.cons_append, List.nil_append]
      rw [parseValue_prim f1 f.2 _ hokf (numStop_cons ',' _ (by decide))]
      dsimp only
      rw [skipWs_cons (by decide)]
      dsimp only
      rw [if_pos rfl, skipWs_ws (by decide), skipWs_ws (by decide),
        skipWs_ws (by decide), ← List.map_cons, joinSep_members_not_ws,
        ih f1 rest (by simp) (fun g hg => hok g (by simp [hg]))
          (by simp at hlen ⊢; omega)]

theorem joinSep_len_ge (sep : List Char) (ls : List (List Char))
    (h : ∀ l ∈ ls, 1 ≤ l.length) : ls.length ≤ (joinSep sep ls).length := by
  induction ls with
  | nil => simp
  | cons l t ih =>
    cases t with
    | nil => simpa using h l (by simp)
    | cons l2 t2 =>
      have h1 : 1 ≤ l.length := h l (by simp)
      have h2 := ih (fun g hg => h g (by simp [hg]))
      rw [joinSep]
      simp only [List.length_append, List.length_cons]
      simp at h2 ⊢
      omega

theorem memberChars_len_ge (f : String × Json) : 1 ≤ (memberChars f).length := by
  rw [show (memberChars f).length = (memberChars f ++ []).length by simp,
    memberChars_norm]
  simp

theorem saveTokensChars_len (t : OAuth2Tokens) :
    (tokensFields t).length + 2 ≤ (saveTokensChars t).length := by
  rw [saveTokensChars]
  rcases hls : (tokensFields t).map memberChars with _ | ⟨l, ls⟩
  · have : tokensFields t = [] := by
      cases h : tokensFields t
      · rfl
      · rw [h, List.map_cons] at hls; cases hls
    simp [this]
  · have hlen : (tokensFields t).length = (l :: ls).length := by
      rw [← hls, List.length_map]
    have hj : (l :: ls).length ≤ (joinSep [',', '\n', ' ', ' '] (l :: ls)).length := by
      refine joinSep_len_ge _ _ ?_
      intro g hg
      rw [← hls] at hg
      obtain ⟨f, _, rfl⟩ := List.mem_map.mp hg
      exact memberChars_len_ge f
    rw [hlen]
    simp only [List.length_cons, List.length_append]
    simp at hj ⊢
    omega

theorem joinSep_members_head (g : String × Json) (gs : List (String × Json))
    (X : List Char) :
    ∃ Y, joinSep [',', '\n', ' ', ' '] ((g :: gs).map memberChars) ++ X =
      '"' :: Y := by
  cases gs with
  | nil =>
    exact ⟨_, by rw [List.map_cons, List.map_nil, joinSep, memberChars_norm]⟩
  | cons g2 t =>
    exact ⟨_, by rw [List.map_cons, List.map_cons, joinSep, List.append_assoc,
      List.append_assoc, memberChars_norm]⟩

theorem parseValue_tokens (t : OAuth2Tokens) (fuel : Nat) (rest : List Char)
    (hne : tokensFields t ≠ []) (hok : ∀ f ∈ tokensFields t, primOk f.2)
    (hfuel : (tokensFields t).length + 2 ≤ fuel) :
    parseValue (fuel + 1) (saveTokensChars t ++ rest) =
      some (tokensToJson t, rest) := by
  obtain ⟨g, gs, hfs⟩ : ∃ g gs, tokensFields t = g :: gs := by
    cases h : tokensFields t with
    | nil => exact absurd h hne
    | cons a b => exact ⟨a, b, rfl⟩
  have hok2 : ∀ f ∈ (g :: gs), primOk f.2 := by rw [← hfs]; exact hok
  have hlen2 : (g :: gs).length + 2 ≤ fuel := by rw [← hfs]; exact hfuel
  rw [tokensToJson, saveTokensChars, hfs, List.map_cons]
  dsimp only
  rw [← List.map_cons]
  have hshape :
      (('\x7b' :: '\n' :: ' ' :: ' ' ::
        joinSep [',', '\n', ' ', ' '] ((g :: gs).map memberChars) ++
          ['\n', '\x7d'])) ++ rest =
      '\x7b' :: '\n' :: ' ' :: ' ' ::
        (joinSep [',', '\n', ' ', ' '] ((g :: gs).map memberChars) ++
          '\n' :: '\x7d' :: rest) := by
    simp
  rw [hshape, parseValue, skipWs_cons (by decide)]
  dsimp only
  rw [if_pos rfl, skipWs_ws (by decide), skipWs_ws (by decide),
    skipWs_ws (by decide), joinSep_members_not_ws]
  obtain ⟨f2, rfl⟩ : ∃ f2, fuel = f2 + 1 := ⟨fuel - 1, by omega⟩
  obtain ⟨f3, rfl⟩ : ∃ f3, f2 = f3 + 1 := by
    refine ⟨f2 - 1, ?_⟩
    simp only [List.length_cons] at hlen2
    omega
  obtain ⟨Y, hY⟩ := joinSep_members_head g gs ('\n' :: '\x7d' :: rest)
  rw [hY, parseObjBody.eq_def]
  dsimp only
  rw [if_neg (by decide), ← hY,
    parseMembers_layout (g :: gs) f3 rest (by simp) hok2
      (by simp only [List.length_cons] at hlen2 ⊢; omega)]

theorem tokensFields_primOk (t : OAuth2Tokens) :
    ∀ f ∈ tokensFields t, primOk f.2 := by
  obtain ⟨a, r, sc, ty, e⟩ := t
  cases a <;> cases r <;> cases sc <;> cases ty <;> cases e <;>
    simp [tokensFields, primOk, Rat.den_intCast]

/-- Round trip through the JavaScript builtins: `JSON.parse` applied to
`JSON.stringify(tokens, null, 2)` recovers exactly the serialized record's
JSON object. -/
theorem parseJson_save (t : OAuth2Tokens) :
    parseJson (saveTokensContents t) = some (tokensToJson t) := by
  by_cases hne : tokensFields t = []
  · have hchars : saveTokensChars t = ['\x7b', '\x7d'] := by
      rw [saveTokensChars, hne, List.map_nil]
    rw [tokensToJson, hne, saveTokensContents, hchars]
    rfl
  · rw [parseJson,
      show (saveTokensContents t).data = saveTokensChars t from rfl,
      show (saveTokensContents t).length = (saveTokensChars t).length from rfl]
    have h1 := parseValue_tokens t ((saveTokensChars t).length) [] hne
      (tokensFields_primOk t) (saveTokensChars_len t)
    rw [List.append_nil] at h1
    rw [h1]
    rfl

/-- JavaScript property access on a parsed JSON value: `undefined` (`none`)
for anything that is not an object with that key; the last occurrence wins on
duplicate keys, as in `JSON.parse`. -/
def jsGetField (j : Json) (k : String) : Option Json :=
  match j with
  | Json.obj fields =>
    fields.foldl (fun acc f => if f.1 = k then some f.2 else acc) none
  | _ => none

/-- Property access expecting a string value. -/
def jsGetStr (j : Json) (k : String) : Option String :=
  match jsGetField j k with
  | some (Json.str s) => some s
  | _ => none

/-- Property access expecting an integral numeric value. -/
def jsGetNum (j : Json) (k : String) : Option Int :=
  match jsGetField j k with
  | some (Json.num q) => if q.den = 1 then some q.num else none
  | _ => none

/-- The TypeScript `as OAuth2Tokens` view of a parsed JSON value: read each
interface field off the object, no validation. -/
def castTokens (j : Json) : OAuth2Tokens where
  access_token := jsGetStr j keyAccessToken
  refresh_token := jsGetStr j keyRefreshToken
  scope := jsGetStr j keyScope
  token_type := jsGetStr j keyTokenType
  expiry_date := jsGetNum j keyExpiryDate

theorem jsGetField_expiry (t : OAuth2Tokens) :
    jsGetField (tokensToJson t) keyExpiryDate =
      t.expiry_date.map (fun n => Json.num (n : ℚ)) := by
  obtain ⟨a, r, sc, ty, e⟩ := t
  cases a <;> cases r <;> cases sc <;> cases ty <;> cases e <;> rfl

theorem jsGetStr_refresh (t : OAuth2Tokens) :
    jsGetStr (tokensToJson t) keyRefreshToken = t.refresh_token := by
  obtain ⟨a, r, sc, ty, e⟩ := t
  cases a <;> cases r <;> cases sc <;> cases ty <;> cases e <;> rfl

theorem castTokens_tokensToJson (t : OAuth2Tokens) :
    castTokens (tokensToJson t) = t := by
  obtain ⟨a, r, sc, ty, e⟩ := t
  cases a <;> cases r <;> cases sc <;> cases ty <;> cases e <;> rfl

/-- The filesystem as the manager sees it: the optional contents of the file
at the configured token path. -/
structure FileState where
  file : Option String
deriving DecidableEq, Repr

/-- Message of the error thrown when the token file cannot be read or parsed
(the `TokenStorageCorrupt` condition of the spec). -/
def tokenLoadErrorMsg : String := "トークンの読み込みに失敗しました"

/-- Message of the `NotAuthenticated` error of `getAuthClient`. -/
def notAuthenticatedMsg : String :=
  "OAuth2トークンが見つかりません。`mcp-server-gsc setup` コマンドを実行して認証を完了してください。"

/-- Message of the `TokenRefreshFailed` error of `getAuthClient`. -/
def tokenRefreshErrorMsg : String :=
  "OAuth2トークンの更新に失敗しました。`mcp-server-gsc setup` コマンドを実行して再認証してください。"

/-- `loadTokens` (src/oauth2-manager.ts): `null` when no file exists at the
token path, otherwise `JSON.parse` of the file contents, with parse failures
wrapped in a thrown error.  The JavaScript return value `OAuth2Tokens | null`
is modelled as the parsed `Json` itself, with JavaScript `null` standing for
the absent ("first run") result. -/
def loadTokens (st : FileState) : Except String Json :=
  match st.file with
  | none => Except.ok Json.null
  | some s =>
    match parseJson s with
    | some j => Except.ok j
    | none => Except.error tokenLoadErrorMsg

/-- JavaScript truthiness of a parsed JSON value. -/
def jsTruthy : Json → Bool
  | Json.null => false
  | Json.bool b => b
  | Json.num q => !(q == 0)
  | Json.str s => !s.isEmpty
  | Json.arr _ => true
  | Json.obj _ => true

/-- JavaScript numeric coercion of a parsed JSON value, as used on the right
of `Date.now() >= tokens.expiry_date`. -/
def jsToNumber : Json → Option ℚ
  | Json.num q => some q
  | Json.bool true => some 1
  | Json.bool false => some 0
  | Json.null => some 0
  | _ => none

/-- The refresh guard of `getAuthClient`:
`tokens.expiry_date && Date.now() >= tokens.expiry_date`.  A missing field is
`undefined` (falsy); a present field is tested for truthiness first, so a
numeric `0` short-circuits the guard to false. -/
def refreshDue (j : Json) (now : Int) : Bool :=
  match jsGetField j keyExpiryDate with
  | none => false
  | some v =>
    jsTruthy v &&
      (match jsToNumber v with
       | some q => decide ((now : ℚ) ≥ q)
       | none => false)

/-- Modelled from the spec: the external OAuth2 client capability
(google-auth-library `refreshAccessToken`), which the source calls but which
is not part of this repository.  Per the spec the refreshed record preserves
the stored refresh token when the provider's response omits one; the library
implements this by overwriting the response's `refresh_token` with the stored
`credentials.refresh_token`. -/
def clientRefreshAccessToken (creds : Json) (resp : OAuth2Tokens) :
    OAuth2Tokens :=
  { resp with refresh_token := jsGetStr creds keyRefreshToken }

/-- Result of one `getAuthClient` run: the token file afterwards, the returned
client credentials or thrown error, and how many refresh calls were made. -/
structure GacResult where
  file : Option String
  result : Except String Json
  refreshCalls : Nat

/-- `getAuthClient` (src/oauth2-manager.ts): load the persisted tokens, fail
`NotAuthenticated` on a falsy value, install the credentials, refresh and
persist when the expiry guard fires, propagate refresh failures as
`TokenRefreshFailed`.  `resp` is the provider's response to the (at most one)
refresh call, `now` is `Date.now()`. -/
def getAuthClient (resp : Except String OAuth2Tokens) (now : Int)
    (st : FileState) : GacResult :=
  match loadTokens st with
  | Except.error e => ⟨st.file, Except.error e, 0⟩
  | Except.ok j =>
    if jsTruthy j = false then ⟨st.file, Except.error notAuthenticatedMsg, 0⟩
    else if refreshDue j now then
      match resp with
      | Except.ok r =>
        let refreshed := clientRefreshAccessToken j r
        ⟨some (saveTokensContents refreshed), Except.ok (tokensToJson refreshed), 1⟩
      | Except.error _ => ⟨st.file, Except.error tokenRefreshErrorMsg, 1⟩
    else ⟨st.file, Except.ok j, 0⟩

/-- `saveTokens` variant embedded in src/index.ts: writes only the bare
refresh-token string in plain text.  `none` models the failure when
`refresh_token` is absent. -/
def saveTokensIndexVariant (t : OAuth2Tokens) : Option String :=
  t.refresh_token

/-- JavaScript whitespace characters removed by `String.prototype.trim` (the
common ASCII ones). -/
def isJsWs (c : Char) : Bool :=
  c = ' ' || c = '\t' || c = '\n' || c = '\r' || c = '\x0c' || c = '\x0b'

/-- Drop leading JavaScript whitespace from a character list. -/
def dropJsWs : List Char → List Char
  | [] => []
  | c :: cs => if isJsWs c then dropJsWs cs else c :: cs

/-- The JavaScript builtin `String.prototype.trim`. -/
def jsTrim (s : String) : String :=
  String.mk ((dropJsWs (dropJsWs s.data).reverse).reverse)

/-- `loadTokens` variant embedded in src/index.ts: reads the file as plain
text and trims it; `none` is the absent result. -/
def loadTokensIndexVariant (st : FileState) : Except String (Option String) :=
  match st.file with
  | none => Except.ok none
  | some s => Except.ok (some (jsTrim s))

/-- The credentials record the src/index.ts variant of `getAuthClient`
installs: `setCredentials({ refresh_token: refreshToken })`. -/
def indexVariantCredentials (s : String) : OAuth2Tokens :=
  ⟨none, some s, none, none, none⟩

/-- Outcomes with which the `startAuthFlow` promise settles. -/
inductive FlowOutcome where
  | success : FlowOutcome
  | authorizationDenied (e : String) : FlowOutcome
  | missingAuthorizationCode : FlowOutcome
  | tokenExchangeFailed (e : String) : FlowOutcome
deriving DecidableEq, Repr

/-- State of one `startAuthFlow` run: the token file, whether the redirect
listener has been closed, and the settlement of the awaited promise.  A
JavaScript promise settles at most once; `settled` records the first
resolution or rejection. -/
structure AuthFlowState where
  file : Option String
  serverClosed : Bool
  settled : Option FlowOutcome
deriving DecidableEq, Repr

/-- The HTML/plain-text pages the handler responds with. -/
inductive ResponseBody where
  | deniedPage (e : String) : ResponseBody
  | missingCodePage : ResponseBody
  | successPage : ResponseBody
  | exchangeFailedPage : ResponseBody
  | notFound : ResponseBody
deriving DecidableEq, Repr

/-- An HTTP response of the redirect listener. -/
structure HttpResponse where
  status : Nat
  body : ResponseBody
deriving DecidableEq, Repr

/-- An HTTP request to the redirect listener: the parsed pathname and the
`code` and `error` query parameters (absent = `none`). -/
structure HttpRequest where
  pathname : String
  code : Option String
  error : Option String
deriving DecidableEq, Repr

/-- JavaScript truthiness of an optional query-parameter string:
`undefined` and the empty string are falsy. -/
def jsTruthyParam : Option String → Bool
  | none => false
  | some s => !s.isEmpty

/-- Settle the flow promise: a promise that is already settled keeps its
first outcome. -/
def settleFlow (st : AuthFlowState) (o : FlowOutcome) : Option FlowOutcome :=
  match st.settled with
  | some o0 => some o0
  | none => some o

/-- `server.close()`: stopping the listener; a second close is a no-op. -/
def closeListener (st : AuthFlowState) : AuthFlowState :=
  { st with serverClosed := true }

/-- The fixed redirect callback path. -/
def callbackPath : String := "/oauth/callback"

/-- The empty string. -/
def emptyString : String := ""

/-- The request handler of the redirect listener inside `startAuthFlow`
(src/oauth2-manager.ts): on the callback path, a truthy `error` parameter
rejects with the provider's message, a falsy `code` rejects with
missing-code, otherwise the code is exchanged (`exchange` is the external
`client.getToken` capability) and on success the tokens are saved and the
flow resolves; requests to any other path get a 404 and leave the flow state
unchanged. -/
def handleAuthRequest (exchange : String → Except String OAuth2Tokens)
    (st : AuthFlowState) (req : HttpRequest) : AuthFlowState × HttpResponse :=
  if req.pathname = callbackPath then
    if jsTruthyParam req.error then
      ({ file := st.file, serverClosed := true,
         settled := settleFlow st
           (FlowOutcome.authorizationDenied (req.error.getD emptyString)) },
        ⟨400, ResponseBody.deniedPage (req.error.getD emptyString)⟩)
    else if !jsTruthyParam req.code then
      ({ file := st.file, serverClosed := true,
         settled := settleFlow st FlowOutcome.missingAuthorizationCode },
        ⟨400, ResponseBody.missingCodePage⟩)
    else
      match exchange (req.code.getD emptyString) with
      | Except.ok tokens =>
        ({ file := some (saveTokensContents tokens), serverClosed := true,
           settled := settleFlow st FlowOutcome.success },
          ⟨200, ResponseBody.successPage⟩)
      | Except.error e =>
        ({ file := st.file, serverClosed := true,
           settled := settleFlow st (FlowOutcome.tokenExchangeFailed e) },
          ⟨500, ResponseBody.exchangeFailedPage⟩)
  else (st, ⟨404, ResponseBody.notFound⟩)

/-- The outcome a single callback-path request drives the flow to. -/
def outcomeOf (exchange : String → Except String OAuth2Tokens)
    (req : HttpRequest) : FlowOutcome :=
  if jsTruthyParam req.error then
    FlowOutcome.authorizationDenied (req.error.getD emptyString)
  else if !jsTruthyParam req.code then FlowOutcome.missingAuthorizationCode
  else
    match exchange (req.code.getD emptyString) with
    | Except.ok _ => FlowOutcome.success
    | Except.error e => FlowOutcome.tokenExchangeFailed e

/-- Process a sequence of requests arriving at the listener. -/
def runAuthRequests (exchange : String → Except String OAuth2Tokens)
    (st : AuthFlowState) (reqs : List HttpRequest) : AuthFlowState :=
  reqs.foldl (fun s r => (handleAuthRequest exchange s r).1) st

/-- The CLI subcommands. -/
inductive Command where
  | setup : Command
  | server : Command
deriving DecidableEq, Repr

/-- `interface CliOptions` (src/cli.ts); an absent optional property is
`none`. -/
structure CliOptions where
  clientId : Option String
  clientSecret : Option String
  tokenPath : Option String
  command : Option Command
  help : Option Bool
deriving DecidableEq, Repr

/-- The initial empty options object. -/
def emptyCliOptions : CliOptions := ⟨none, none, none, none, none⟩

/-- CLI flag names. -/
def flagClientId : String := "--client-id"

/-- The `--client-secret` flag. -/
def flagClientSecret : String := "--client-secret"

/-- The `--token-path` flag. -/
def flagTokenPath : String := "--token-path"

/-- The `-h` flag. -/
def flagHelpShort : String := "-h"

/-- The `--help` flag. -/
def flagHelp : String := "--help"

/-- The `setup` positional command. -/
def cmdSetup : String := "setup"

/-- The `server` positional command. -/
def cmdServer : String := "server"

/-- A single dash, for the `startsWith('-')` test. -/
def dashString : String := "-"

/-- The argument loop of `parseCliOptions` (src/cli.ts).  A value-taking flag
consumes the next argument only when one exists, mirroring the
`i + 1 < args.length` guard; `-h`/`--help` sets `help`; the positional tokens
set `command` unconditionally; the `default` branch can set `command` only
for a non-dash token equal to `setup`/`server` when no command is set (dead
in practice, modelled faithfully). -/
def parseLoop : List String → CliOptions → CliOptions
  | [], o => o
  | a :: rest, o =>
    if a = flagClientId then
      match rest with
      | v :: rest2 => parseLoop rest2 { o with clientId := some v }
      | [] => o
    else if a = flagClientSecret then
      match rest with
      | v :: rest2 => parseLoop rest2 { o with clientSecret := some v }
      | [] => o
    else if a = flagTokenPath then
      match rest with
      | v :: rest2 => parseLoop rest2 { o with tokenPath := some v }
      | [] => o
    else if a = flagHelpShort ∨ a = flagHelp then
      parseLoop rest { o with help := some true }
    else if a = cmdSetup then
      parseLoop rest { o with command := some Command.setup }
    else if a = cmdServer then
      parseLoop rest { o with command := some Command.server }
    else if ¬ a.startsWith dashString ∧ o.command = none ∧
        (a = cmdSetup ∨ a = cmdServer) then
      parseLoop rest
        { o with command :=
            if a = cmdSetup then some Command.setup else some Command.server }
    else parseLoop rest o

/-- The final `if (!options.command) options.command = 'server'` step. -/
def withCommandDefault (o : CliOptions) : CliOptions :=
  if o.command = none then { o with command := some Command.server } else o

/-- `parseCliOptions` (src/cli.ts): run the loop, then default the command to
`server`. -/
def parseCliOptions (args : List String) : CliOptions :=
  withCommandDefault (parseLoop args emptyCliOptions)

/-- The default token file name joined below `os.homedir()`. -/
def defaultTokenPath (home : String) : String :=
  home ++ "/.gsc-oauth-token.json"

/-- JavaScript `a || b` on an optional string and a fallback string:
`undefined` and `''` are falsy. -/
def jsStringOr (a : Option String) (b : String) : String :=
  match a with
  | some s => if s.isEmpty then b else s
  | none => b

/-- `mergeConfig` (src/cli.ts): object spread `{...env, ...cli}` (a property
present on the CLI side wins, even when empty), then
`tokenPath: cli.tokenPath || env.tokenPath || path.join(homedir, default)`
with JavaScript truthiness. -/
def mergeConfig (home : String) (cli env : CliOptions) : CliOptions :=
  { clientId := cli.clientId <|> env.clientId
  , clientSecret := cli.clientSecret <|> env.clientSecret
  , tokenPath :=
      some (jsStringOr cli.tokenPath
        (jsStringOr env.tokenPath (defaultTokenPath home)))
  , command := cli.command <|> env.command
  , help := cli.help <|> env.help }

/-- Result of `validateConfig`. -/
structure ValidationResult where
  isValid : Bool
  errors : List String
deriving DecidableEq, Repr

/-- Error message for a missing client id. -/
def errClientIdMsg : String :=
  "クライアントIDが必要です。--client-id オプションまたは GSC_CLIENT_ID 環境変数を設定してください。"

/-- Error message for a missing client secret. -/
def errClientSecretMsg : String :=
  "クライアントシークレットが必要です。--client-secret オプションまたは GSC_CLIENT_SECRET 環境変数を設定してください。"

/-- Error message for a missing token path. -/
def errTokenPathMsg : String :=
  "トークンパスが必要です。--token-path オプションまたは GSC_TOKEN_PATH 環境変数を設定してください。"

/-- `validateConfig` (src/cli.ts): command-specific falsy checks pushing one
message per missing field; `isValid` is `errors.length === 0`. -/
def validateConfig (config : CliOptions) : ValidationResult :=
  let errors : List String :=
    if config.command = some Command.setup then
      (if jsTruthyParam config.clientId then [] else [errClientIdMsg]) ++
        (if jsTruthyParam config.clientSecret then [] else [errClientSecretMsg])
    else if config.command = some Command.server then
      if jsTruthyParam config.tokenPath then [] else [errTokenPathMsg]
    else []
  ⟨errors.length == 0, errors⟩

/-- The option field a value-taking flag writes to. -/
def cliField (o : CliOptions) (flag : String) : Option String :=
  if flag = flagClientId then o.clientId
  else if flag = flagClientSecret then o.clientSecret
  else if flag = flagTokenPath then o.tokenPath
  else none

theorem parseLoop_single {flag : String}
    (hf : flag = flagClientId ∨ flag = flagClientSecret ∨ flag = flagTokenPath)
    (o : CliOptions) : parseLoop [flag] o = o := by
  rcases hf with rfl | rfl | rfl <;> rfl

theorem cliField_set_command (o : CliOptions) (c : Option Command)
    (flag : String) : cliField { o with command := c } flag = cliField o flag :=
  rfl

theorem cliField_set_help (o : CliOptions) (h : Option Bool)
    (flag : String) : cliField { o with help := h } flag = cliField o flag :=
  rfl

theorem parseLoop_dangling : ∀ (n : Nat) (l : List String) (o : CliOptions)
    (flag : String), l.length ≤ n →
    (flag = flagClientId ∨ flag = flagClientSecret ∨ flag = flagTokenPath) →
    flag ∉ l →
    cliField (parseLoop (l ++ [flag]) o) flag = cliField o flag := by
  intro n
  induction n with
  | zero =>
    intro l o flag hl hf hmem
    have hl0 : l = [] := List.eq_nil_of_length_eq_zero (by omega)
    subst hl0
    rw [List.nil_append, parseLoop_single hf]
  | succ n ih =>
    intro l o flag hl hf hmem
    cases l with
    | nil => rw [List.nil_append, parseLoop_single hf]
    | cons a rest =>
      have hne : flag ≠ a := fun h => hmem (h ▸ List.mem_cons_self a rest)
      have hrest : flag ∉ rest := fun h => hmem (List.mem_cons_of_mem a h)
      have hlen : rest.length ≤ n := by
        simp only [List.length_cons] at hl; omega
      cases rest with
      | nil =>
        rw [List.cons_append, List.nil_append, parseLoop]
        by_cases h1 : a = flagClientId
        · rw [if_pos h1]
          show cliField { o with clientId := some flag } flag = cliField o flag
          rcases hf with rfl | rfl | rfl
          · exact absurd h1.symm hne
          · rfl
          · rfl
        rw [if_neg h1]
        by_cases h2 : a = flagClientSecret
        · rw [if_pos h2]
          show cliField { o with clientSecret := some flag } flag =
            cliField o flag
          rcases hf with rfl | rfl | rfl
          · rfl
          · exact absurd h2.symm hne
          · rfl
        rw [if_neg h2]
        by_cases h3 : a = flagTokenPath
        · rw [if_pos h3]
          show cliField { o with tokenPath := some flag } flag = cliField o flag
          rcases hf with rfl | rfl | rfl
          · rfl
          · rfl
          · exact absurd h3.symm hne
        rw [if_neg h3]
        by_cases h4 : a = flagHelpShort ∨ a = flagHelp
        · rw [if_pos h4, parseLoop_single hf, cliField_set_help]
        rw [if_neg h4]
        by_cases h5 : a = cmdSetup
        · rw [if_pos h5, parseLoop_single hf, cliField_set_command]
        rw [if_neg h5]
        by_cases h6 : a = cmdServer
        · rw [if_pos h6, parseLoop_single hf, cliField_set_command]
        rw [if_neg h6, if_neg (by simp [h5, h6]), parseLoop_single hf]
      | cons v rest2 =>
        have hlen2 : rest2.length ≤ n := by
          simp only [List.length_cons] at hlen; omega
        have hrest2 : flag ∉ rest2 := fun h =>
          hrest (List.mem_cons_of_mem v h)
        rw [List.cons_append, List.cons_append, parseLoop]
        by_cases h1 : a = flagClientId
        · rw [if_pos h1,
            ih rest2 { o with clientId := some v } flag hlen2 hf hrest2]
          rcases hf with rfl | rfl | rfl
          · exact absurd h1.symm hne
          · rfl
          · rfl
        rw [if_neg h1]
        by_cases h2 : a = flagClientSecret
        · rw [if_pos h2,
            ih rest2 { o with clientSecret := some v } flag hlen2 hf hrest2]
          rcases hf with rfl | rfl | rfl
          · rfl
          · exact absurd h2.symm hne
          · rfl
        rw [if_neg h2]
        by_cases h3 : a = flagTokenPath
        · rw [if_pos h3,
            ih rest2 { o with tokenPath := some v } flag hlen2 hf hrest2]
          rcases hf with rfl | rfl | rfl
          · rfl
          · rfl
          · exact absurd h3.symm hne
        rw [if_neg h3]
        by_cases h4 : a = flagHelpShort ∨ a = flagHelp
        · rw [if_pos h4, ← List.cons_append,
            ih (v :: rest2) { o with help := some true } flag hlen hf hrest,
            cliField_set_help]
        rw [if_neg h4]
        by_cases h5 : a = cmdSetup
        · rw [if_pos h5, ← List.cons_append,
            ih (v :: rest2) { o with command := some Command.setup } flag hlen
              hf hrest,
            cliField_set_command]
        rw [if_neg h5]
        by_cases h6 : a = cmdServer
        · rw [if_pos h6, ← List.cons_append,
            ih (v :: rest2) { o with command := some Command.server } flag hlen
              hf hrest,
            cliField_set_command]
        rw [if_neg h6, if_neg (by simp [h5, h6]), ← List.cons_append,
          ih (v :: rest2) o flag hlen hf hrest]

theorem jsStringOr_none (b : String) : jsStringOr none b = b := rfl

theorem jsStringOr_empty (b : String) : jsStringOr (some "") b = b := rfl

theorem jsStringOr_ne {s : String} (h : s ≠ "") (b : String) :
    jsStringOr (some s) b = s := by
  rw [jsStringOr, if_neg]
  intro hh
  exact h ((String.isEmpty_iff s).mp hh)

/-- C8 counterexample: the claim says the merged token path equals the CLI
value whenever one is given, but a given-but-empty CLI `--token-path` loses
to the environment value, because `mergeConfig` uses JavaScript `||`
(truthiness) for the token path. -/
theorem claim_C8_counterexample :
    (mergeConfig "/home/u" ⟨none, none, some "", none, none⟩
        ⟨none, none, some "/b", none, none⟩).tokenPath = some "/b" ∧
      (some "" : Option String) ≠ some "/b" := by
  exact ⟨rfl, by simp⟩

/-- C8 (amended): the merged token path is the CLI value when it is given and
non-empty, else the environment value when given and non-empty, else
`<home>/.gsc-oauth-token.json`; client id and client secret follow
presence-based CLI-over-environment precedence (object spread), where a
given-but-empty CLI value also wins. -/
theorem claim_C8 (home : String) (cli env : CliOptions) :
    (∀ s, cli.tokenPath = some s → s ≠ "" →
      (mergeConfig home cli env).tokenPath = some s) ∧
    ((cli.tokenPath = none ∨ cli.tokenPath = some "") →
      ∀ s, env.tokenPath = some s → s ≠ "" →
        (mergeConfig home cli env).tokenPath = some s) ∧
    ((cli.tokenPath = none ∨ cli.tokenPath = some "") →
      (env.tokenPath = none ∨ env.tokenPath = some "") →
      (mergeConfig home cli env).tokenPath =
        some (home ++ "/.gsc-oauth-token.json")) ∧
    (mergeConfig home cli env).clientId = (cli.clientId <|> env.clientId) ∧
    (mergeConfig home cli env).clientSecret =
      (cli.clientSecret <|> env.clientSecret) := by
  refine ⟨?_, ?_, ?_, rfl, rfl⟩
  · intro s hs hne
    show some (jsStringOr cli.tokenPath _) = some s
    rw [hs, jsStringOr_ne hne]
  · intro hcli s hs hne
    show some (jsStringOr cli.tokenPath (jsStringOr env.tokenPath _)) = some s
    rcases hcli with h | h <;>
      rw [h, hs] <;> [rw [jsStringOr_none]; rw [jsStringOr_empty]] <;>
      rw [jsStringOr_ne hne]
  · intro hcli henv
    show some (jsStringOr cli.tokenPath (jsStringOr env.tokenPath _)) = some _
    rcases hcli with h | h <;> rcases henv with h2 | h2 <;> rw [h, h2] <;>
      rfl

/-- C8 witness: a non-empty CLI token path wins over the environment one. -/
theorem claim_C8_witness :
    (mergeConfig "/h" ⟨none, none, some "/a", none, none⟩
        ⟨none, none, some "/b", none, none⟩).tokenPath = some "/a" :=
  (claim_C8 "/h" ⟨none, none, some "/a", none, none⟩
      ⟨none, none, some "/b", none, none⟩).1 "/a" rfl (by decide)

/-- C9: validateConfig is command-specific: for `setup` the result is valid
iff both client id and client secret are present and non-empty, with one
error message per missing field; for `server` it is valid iff the token path
is present and non-empty; and in every case `isValid` is true exactly when
the error list is empty. -/
theorem claim_C9 (config : CliOptions) :
    ((validateConfig config).isValid = true ↔
      (validateConfig config).errors = []) ∧
    (config.command = some Command.setup →
      (((validateConfig config).isValid = true) ↔
        (jsTruthyParam config.clientId = true ∧
          jsTruthyParam config.clientSecret = true)) ∧
      (validateConfig config).errors.length =
        (if jsTruthyParam config.clientId then 0 else 1) +
          (if jsTruthyParam config.clientSecret then 0 else 1)) ∧
    (config.command = some Command.server →
      (((validateConfig config).isValid = true) ↔
        jsTruthyParam config.tokenPath = true)) := by
  obtain ⟨ci, csec, tp, cmd, hp⟩ := config
  rcases cmd with _ | cmd
  · simp [validateConfig]
  · cases cmd <;>
      (cases h1 : jsTruthyParam ci <;> cases h2 : jsTruthyParam csec <;>
        cases h3 : jsTruthyParam tp <;>
        simp [validateConfig, h1, h2, h3])

/-- C9 witness: a setup configuration with both credentials present and
non-empty validates successfully. -/
theorem claim_C9_witness :
    (validateConfig ⟨some "i", some "s", some "p", some Command.setup,
        none⟩).isValid = true :=
  ((claim_C9 ⟨some "i", some "s", some "p", some Command.setup,
      none⟩).2.1 rfl).1.mpr (by constructor <;> rfl)

/-- C10 counterexample: with argument list `["--client-id", "--client-id"]`
the value-taking flag `--client-id` is the final element with no following
value, yet `clientId` is set (to the string `--client-id`, consumed as the
value of the first occurrence), not left unset as the claim states. -/
theorem claim_C10_counterexample :
    (parseCliOptions [flagClientId, flagClientId]).clientId =
        some flagClientId ∧
      some flagClientId ≠ (none : Option String) := by
  exact ⟨rfl, by simp⟩

/-- C10 (amended): if a value-taking flag (`--client-id`, `--client-secret`
or `--token-path`) appears as the final element and nowhere earlier in the
argument list, the corresponding option is left unset (and parsing never
fails, being a total function); and the returned command is always `setup` or
`server`, defaulting to `server`. -/
theorem claim_C10 :
    (∀ (args : List String) (flag : String),
      (flag = flagClientId ∨ flag = flagClientSecret ∨ flag = flagTokenPath) →
      flag ∉ args →
      cliField (parseCliOptions (args ++ [flag])) flag = none) ∧
    (∀ args : List String,
      (parseCliOptions args).command = some Command.setup ∨
        (parseCliOptions args).command = some Command.server) := by
  constructor
  · intro args flag hf hmem
    have h := parseLoop_dangling args.length args emptyCliOptions flag
      le_rfl hf hmem
    have hnone : cliField emptyCliOptions flag = none := by
      rcases hf with rfl | rfl | rfl <;> rfl
    rw [parseCliOptions, withCommandDefault]
    by_cases hc : (parseLoop (args ++ [flag]) emptyCliOptions).command = none
    · rw [if_pos hc, cliField_set_command, h, hnone]
    · rw [if_neg hc, h, hnone]
  · intro args
    rw [parseCliOptions, withCommandDefault]
    by_cases hc : (parseLoop args emptyCliOptions).command = none
    · rw [if_pos hc]
      right
      rfl
    · rw [if_neg hc]
      rcases hx : (parseLoop args emptyCliOptions).command with _ | c
      · exact absurd hx hc
      · cases c
        · left; rfl
        · right; rfl

/-- C10 witness: a dangling final `--client-id` after unrelated arguments
leaves `clientId` unset, and the command of a flagless invocation defaults to
`server`. -/
theorem claim_C10_witness :
    cliField (parseCliOptions (["x"] ++ [flagClientId])) flagClientId = none ∧
      ((parseCliOptions []).command = some Command.setup ∨
        (parseCliOptions []).command = some Command.server) :=
  ⟨claim_C10.1 ["x"] flagClientId (Or.inl rfl) (by decide),
    claim_C10.2 []⟩

/-- C4 counterexample: a file whose contents are the four characters `null`
exists, is readable and parses successfully, yet `loadTokens` returns the
distinguished absent result (JavaScript `null`), so "absent iff no file
exists" fails. -/
theorem claim_C4_counterexample :
    loadTokens ⟨some "null"⟩ = Except.ok Json.null ∧
      (some "null" : Option String) ≠ none := by
  exact ⟨rfl, by simp⟩

/-- C4 (amended): `loadTokens` returns the absent result (JavaScript `null`)
iff no file exists or the existing file's contents parse to JSON `null`; when
a file exists but cannot be parsed, `loadTokens` fails with the
token-storage-corrupt error and never returns the absent result. -/
theorem claim_C4 (st : FileState) :
    (loadTokens st = Except.ok Json.null ↔
      st.file = none ∨
        ∃ s, st.file = some s ∧ parseJson s = some Json.null) ∧
    (∀ s, st.file = some s → parseJson s = none →
      loadTokens st = Except.error tokenLoadErrorMsg) := by
  obtain ⟨f⟩ := st
  constructor
  · cases f with
    | none => simp [loadTokens]
    | some s =>
      cases hp : parseJson s with
      | none => simp [loadTokens, hp]
      | some j => simp [loadTokens, hp]
  · intro s hs hp
    have : f = some s := hs
    subst this
    simp [loadTokens, hp]

/-- C4 witness: a file holding a lone opening brace is present but
unparseable and yields the corrupt-storage error, not the absent result. -/
theorem claim_C4_witness :
    loadTokens ⟨some "\x7b"⟩ = Except.error tokenLoadErrorMsg :=
  (claim_C4 ⟨some "\x7b"⟩).2 "\x7b" rfl rfl

/-- C3 counterexample: under the src/index.ts persistence variant, saving
writes only the refresh-token string, so loading after saving yields a bare
refresh token and the credentials record rebuilt from it loses the access
token, scope, token type and expiry date: the round trip does not preserve
all fields as claimed. -/
theorem claim_C3_counterexample :
    saveTokensIndexVariant
        ⟨some "at", some "rt", some "sc", some "Bearer", some 5⟩ = some "rt" ∧
      loadTokensIndexVariant ⟨some "rt"⟩ = Except.ok (some "rt") ∧
      indexVariantCredentials "rt" ≠
        ⟨some "at", some "rt", some "sc", some "Bearer", some 5⟩ := by
  exact ⟨rfl, rfl, by decide⟩

/-- C3 (amended): for the JSON persistence of src/oauth2-manager.ts, loading
after saving reproduces the record exactly — all five fields preserved — and
any two records with equal fields serialize to byte-identical file contents;
the plain-text src/index.ts variant preserves only the refresh token. -/
theorem claim_C3 (t : OAuth2Tokens) (hrt : t.refresh_token ≠ none) :
    parseJson (saveTokensContents t) = some (tokensToJson t) ∧
    castTokens (tokensToJson t) = t ∧
    ∀ t2 : OAuth2Tokens, t.access_token = t2.access_token →
      t.refresh_token = t2.refresh_token → t.scope = t2.scope →
      t.token_type = t2.token_type → t.expiry_date = t2.expiry_date →
      saveTokensContents t = saveTokensContents t2 := by
  refine ⟨parseJson_save t, castTokens_tokensToJson t, ?_⟩
  intro t2 h1 h2 h3 h4 h5
  have heq : t = t2 := by
    obtain ⟨a, r, sc, ty, e⟩ := t
    obtain ⟨a2, r2, sc2, ty2, e2⟩ := t2
    simp_all
  rw [heq]

/-- C3 witness: a concrete record with refresh token present round-trips
through save and parse. -/
theorem claim_C3_witness :
    parseJson (saveTokensContents ⟨some "at", some "rt", none, none,
        some 42⟩) =
      some (tokensToJson ⟨some "at", some "rt", none, none, some 42⟩) :=
  (claim_C3 ⟨some "at", some "rt", none, none, some 42⟩ (by simp)).1

theorem refreshDue_tokens (t : OAuth2Tokens) (now : Int) :
    refreshDue (tokensToJson t) now =
      match t.expiry_date with
      | none => false
      | some d =>
        (!((d : ℚ) == 0)) && decide ((now : ℚ) ≥ ((d : ℚ))) := by
  rw [refreshDue, jsGetField_expiry]
  cases t.expiry_date with
  | none => rfl
  | some d => rfl

theorem loadTokens_save (t : OAuth2Tokens) :
    loadTokens ⟨some (saveTokensContents t)⟩ = Except.ok (tokensToJson t) := by
  rw [loadTokens]
  dsimp only
  rw [parseJson_save t]

theorem getAuthClient_save (t : OAuth2Tokens)
    (resp : Except String OAuth2Tokens) (now : Int) :
    getAuthClient resp now ⟨some (saveTokensContents t)⟩ =
      if refreshDue (tokensToJson t) now then
        match resp with
        | Except.ok r =>
          ⟨some (saveTokensContents (clientRefreshAccessToken
              (tokensToJson t) r)),
            Except.ok (tokensToJson (clientRefreshAccessToken
              (tokensToJson t) r)), 1⟩
        | Except.error _ =>
          ⟨some (saveTokensContents t), Except.error tokenRefreshErrorMsg, 1⟩
      else ⟨some (saveTokensContents t), Except.ok (tokensToJson t), 0⟩ := by
  rw [getAuthClient, loadTokens_save]
  dsimp only
  rw [if_neg (by rw [tokensToJson, jsTruthy]; simp)]

/-- C1 counterexample: a loaded record with `expiry_date` present and equal
to `0` — an epoch timestamp in the past at time `1` — triggers zero refresh
calls, because the code's guard `tokens.expiry_date && ...` treats the number
`0` as falsy; the claim requires a refresh whenever the field is present and
past. -/
theorem claim_C1_counterexample :
    (getAuthClient (Except.ok ⟨none, some "r2", none, none, some 99⟩) 1
        ⟨some (saveTokensContents
          ⟨none, some "rt", none, none, some 0⟩)⟩).refreshCalls = 0 ∧
      (⟨none, some "rt", none, none, some 0⟩ : OAuth2Tokens).expiry_date =
        some 0 ∧
      (0 : Int) ≤ 1 := by
  exact ⟨rfl, rfl, by decide⟩

/-- C1 (amended): for every loaded token record, `getAuthClient` performs a
refresh call iff the record's expiry date is present, non-zero (JavaScript
truthiness of the guard), and the current time is at or past it; in every
case at most one refresh call is made, so a future or absent (or zero) expiry
triggers zero refresh calls. -/
theorem claim_C1 (t : OAuth2Tokens) (resp : Except String OAuth2Tokens)
    (now : Int) (st : FileState)
    (hfile : st.file = some (saveTokensContents t)) :
    ((getAuthClient resp now st).refreshCalls = 1 ↔
      ∃ d, t.expiry_date = some d ∧ d ≠ 0 ∧ d ≤ now) ∧
    (getAuthClient resp now st).refreshCalls ≤ 1 := by
  obtain ⟨f⟩ := st
  have : f = some (saveTokensContents t) := hfile
  subst this
  rw [getAuthClient_save, refreshDue_tokens]
  rcases he : t.expiry_date with _ | d
  · simp [he]
  · by_cases hd : d = 0
    · subst hd
      simp [he]
    · by_cases hn : d ≤ now
      · have hg : ((!((d : ℚ) == 0)) &&
            decide ((now : ℚ) ≥ ((d : ℚ)))) = true := by
          simp only [Bool.and_eq_true, Bool.not_eq_true', beq_eq_false_iff_ne,
            ne_eq, Int.cast_eq_zero, decide_eq_true_eq, ge_iff_le,
            Int.cast_le]
          exact ⟨hd, hn⟩
        dsimp only
        rw [hg, if_pos rfl]
        cases resp <;> simp [he, hd, hn]
      · have hg : ((!((d : ℚ) == 0)) &&
            decide ((now : ℚ) ≥ ((d : ℚ)))) = false := by
          simp only [Bool.and_eq_false_iff, decide_eq_false_iff_not, ge_iff_le,
            Int.cast_le]
          right
          exact fun h => hn h
        dsimp only
        rw [hg, if_neg (by simp)]
        simp [he, hn]

/-- C1 witness: a past non-zero expiry triggers exactly one refresh call. -/
theorem claim_C1_witness :
    (getAuthClient (Except.ok ⟨none, some "r2", none, none, some 99⟩) 10
        ⟨some (saveTokensContents
          ⟨none, some "rt", none, none, some 5⟩)⟩).refreshCalls = 1 :=
  ((claim_C1 ⟨none, some "rt", none, none, some 5⟩
      (Except.ok ⟨none, some "r2", none, none, some 99⟩) 10
      ⟨some (saveTokensContents ⟨none, some "rt", none, none, some 5⟩)⟩
      rfl).1).mpr ⟨5, rfl, by decide, by decide⟩

/-- C5: whenever `getAuthClient` performs a (successful) refresh, the
refreshed record is persisted — overwriting the prior file — before the
handle is returned, and the persisted record's refresh token is the one
stored in the loaded credentials (the external client capability overwrites
the provider response's refresh token with the stored one, so in particular
the original refresh token is retained when the response omits one). -/
theorem claim_C5 (t : OAuth2Tokens) (r : OAuth2Tokens) (now : Int)
    (st : FileState) (hfile : st.file = some (saveTokensContents t))
    (href : (getAuthClient (Except.ok r) now st).refreshCalls = 1) :
    (getAuthClient (Except.ok r) now st).file =
      some (saveTokensContents (clientRefreshAccessToken (tokensToJson t) r)) ∧
    (getAuthClient (Except.ok r) now st).result =
      Except.ok (tokensToJson (clientRefreshAccessToken (tokensToJson t) r)) ∧
    (clientRefreshAccessToken (tokensToJson t) r).refresh_token =
      t.refresh_token := by
  obtain ⟨f⟩ := st
  have : f = some (saveTokensContents t) := hfile
  subst this
  rw [getAuthClient_save] at href ⊢
  by_cases hg : refreshDue (tokensToJson t) now
  · rw [if_pos hg]
    exact ⟨rfl, rfl, by rw [clientRefreshAccessToken, jsGetStr_refresh]⟩
  · rw [if_neg hg] at href
    exact absurd href (by simp)

/-- C5 witness: with a past expiry and a refresh response that omits the
refresh token, the refreshed record is persisted and retains the original
refresh token. -/
theorem claim_C5_witness :
    (getAuthClient (Except.ok ⟨some "at2", none, none, none, some 99⟩) 10
        ⟨some (saveTokensContents
          ⟨none, some "rt", none, none, some 5⟩)⟩).file =
      some (saveTokensContents (clientRefreshAccessToken
        (tokensToJson ⟨none, some "rt", none, none, some 5⟩)
        ⟨some "at2", none, none, none, some 99⟩)) ∧
    (clientRefreshAccessToken
        (tokensToJson ⟨none, some "rt", none, none, some 5⟩)
        ⟨some "at2", none, none, none, some 99⟩).refresh_token = some "rt" :=
  ⟨(claim_C5 ⟨none, some "rt", none, none, some 5⟩
      ⟨some "at2", none, none, none, some 99⟩ 10
      ⟨some (saveTokensContents ⟨none, some "rt", none, none, some 5⟩)⟩
      rfl rfl).1,
    (claim_C5 ⟨none, some "rt", none, none, some 5⟩
      ⟨some "at2", none, none, none, some 99⟩ 10
      ⟨some (saveTokensContents ⟨none, some "rt", none, none, some 5⟩)⟩
      rfl rfl).2.2⟩

theorem handleAuthRequest_noncallback
    (exchange : String → Except String OAuth2Tokens) (st : AuthFlowState)
    (req : HttpRequest) (h : req.pathname ≠ callbackPath) :
    handleAuthRequest exchange st req = (st, ⟨404, ResponseBody.notFound⟩) := by
  rw [handleAuthRequest, if_neg h]

theorem handleAuthRequest_settles
    (exchange : String → Except String OAuth2Tokens) (st : AuthFlowState)
    (req : HttpRequest) (hcb : req.pathname = callbackPath)
    (hnone : st.settled = none) :
    (handleAuthRequest exchange st req).1.settled =
      some (outcomeOf exchange req) := by
  rw [handleAuthRequest, if_pos hcb]
  by_cases h1 : jsTruthyParam req.error
  · rw [if_pos h1]
    dsimp only
    rw [settleFlow, hnone, outcomeOf, if_pos h1]
  · rw [if_neg h1]
    by_cases h2 : jsTruthyParam req.code
    · rw [if_neg (by simp [h2])]
      cases hx : exchange (req.code.getD emptyString) with
      | ok tokens =>
        dsimp only
        rw [settleFlow, hnone, outcomeOf, if_neg h1, if_neg (by simp [h2]), hx]
      | error e =>
        dsimp only
        rw [settleFlow, hnone, outcomeOf, if_neg h1, if_neg (by simp [h2]), hx]
    · rw [if_pos (by simp [h2])]
      dsimp only
      rw [settleFlow, hnone, outcomeOf, if_neg h1, if_pos (by simp [h2])]

theorem handleAuthRequest_keeps_settled
    (exchange : String → Except String OAuth2Tokens) (st : AuthFlowState)
    (req : HttpRequest) (o : FlowOutcome) (h : st.settled = some o) :
    (handleAuthRequest exchange st req).1.settled = some o := by
  rw [handleAuthRequest]
  by_cases hcb : req.pathname = callbackPath
  · rw [if_pos hcb]
    by_cases h1 : jsTruthyParam req.error
    · rw [if_pos h1]
      dsimp only
      rw [settleFlow, h]
    · rw [if_neg h1]
      by_cases h2 : jsTruthyParam req.code
      · rw [if_neg (by simp [h2])]
        cases exchange (req.code.getD emptyString) <;>
          · dsimp only
            rw [settleFlow, h]
      · rw [if_pos (by simp [h2])]
        dsimp only
        rw [settleFlow, h]
  · rw [if_neg hcb]
    exact h

theorem runAuthRequests_keeps_settled
    (exchange : String → Except String OAuth2Tokens) (o : FlowOutcome) :
    ∀ (reqs : List HttpRequest) (st : AuthFlowState), st.settled = some o →
    (runAuthRequests exchange st reqs).settled = some o := by
  intro reqs
  induction reqs with
  | nil => intro st h; exact h
  | cons r rs ih =>
    intro st h
    exact ih _ (handleAuthRequest_keeps_settled exchange st r o h)

theorem handleAuthRequest_file (exchange : String → Except String OAuth2Tokens)
    (st : AuthFlowState) (req : HttpRequest)
    (h : outcomeOf exchange req ≠ FlowOutcome.success) :
    (handleAuthRequest exchange st req).1.file = st.file := by
  rw [handleAuthRequest]
  by_cases hcb : req.pathname = callbackPath
  · rw [if_pos hcb]
    by_cases h1 : jsTruthyParam req.error
    · rw [if_pos h1]
    · rw [if_neg h1]
      by_cases h2 : jsTruthyParam req.code
      · rw [if_neg (by simp [h2])]
        cases hx : exchange (req.code.getD emptyString) with
        | ok tokens =>
          exfalso
          apply h
          rw [outcomeOf, if_neg h1, if_neg (by simp [h2]), hx]
        | error e => rfl
      · rw [if_pos (by simp [h2])]
  · rw [if_neg hcb]

/-- C2: no failure leaves partial persisted state.  Every redirect-listener
request whose flow outcome is a failure (authorization denied, missing code,
or a failed code-for-token exchange) leaves the token file exactly as it was;
requests to other paths never touch it; and every failing `getAuthClient` run
(including a failed refresh) leaves the previously persisted token file
unchanged. -/
theorem claim_C2 :
    (∀ (exchange : String → Except String OAuth2Tokens) (st : AuthFlowState)
      (req : HttpRequest), outcomeOf exchange req ≠ FlowOutcome.success →
      (handleAuthRequest exchange st req).1.file = st.file) ∧
    (∀ (exchange : String → Except String OAuth2Tokens) (st : AuthFlowState)
      (req : HttpRequest), req.pathname ≠ callbackPath →
      (handleAuthRequest exchange st req).1.file = st.file) ∧
    (∀ (resp : Except String OAuth2Tokens) (now : Int) (st : FileState)
      (e : String), (getAuthClient resp now st).result = Except.error e →
      (getAuthClient resp now st).file = st.file) := by
  refine ⟨fun ex st req h => handleAuthRequest_file ex st req h,
    fun ex st req h => by rw [handleAuthRequest_noncallback ex st req h],
    ?_⟩
  intro resp now st e hres
  rw [getAuthClient] at hres ⊢
  cases hl : loadTokens st with
  | error e2 => rfl
  | ok j =>
    rw [hl] at hres
    dsimp only at hres ⊢
    by_cases h1 : jsTruthy j = false
    · rw [if_pos h1]
    · rw [if_neg h1] at hres ⊢
      by_cases h2 : refreshDue j now
      · rw [if_pos h2] at hres ⊢
        cases resp with
        | ok r => simp at hres
        | error e3 => rfl
      · rw [if_neg h2] at hres
        simp at hres

/-- C2 witness: an access-denied callback and a failed refresh each leave the
file untouched. -/
theorem claim_C2_witness :
    (handleAuthRequest (fun _ => Except.error "x") ⟨some "old", false, none⟩
        ⟨callbackPath, none, some "denied"⟩).1.file = some "old" ∧
    (getAuthClient (Except.error "boom") 10
        ⟨some (saveTokensContents
          ⟨none, some "rt", none, none, some 5⟩)⟩).file =
      some (saveTokensContents ⟨none, some "rt", none, none, some 5⟩) :=
  ⟨claim_C2.1 (fun _ => Except.error "x") ⟨some "old", false, none⟩
      ⟨callbackPath, none, some "denied"⟩ (by decide),
    claim_C2.2.2 (Except.error "boom") 10
      ⟨some (saveTokensContents ⟨none, some "rt", none, none, some 5⟩)⟩
      tokenRefreshErrorMsg rfl⟩

/-- C6 counterexample: a callback request carrying a present but empty
`error` parameter settles the flow with `missingAuthorizationCode`, not with
`authorizationDenied` as the claim requires for every present `error`
parameter, because the code's `if (error)` treats the empty string as
falsy. -/
theorem claim_C6_counterexample :
    (handleAuthRequest (fun _ => Except.error "x") ⟨none, false, none⟩
        ⟨callbackPath, none, some ""⟩).1.settled =
      some FlowOutcome.missingAuthorizationCode ∧
    (⟨callbackPath, none, some ""⟩ : HttpRequest).error = some "" ∧
    some FlowOutcome.missingAuthorizationCode ≠
      some (FlowOutcome.authorizationDenied "") := by
  exact ⟨rfl, rfl, by decide⟩

/-- C6 (amended): for every request handled by the redirect listener with the
flow not yet settled: a callback-path request with a non-empty `error`
parameter settles the flow with `authorizationDenied` carrying the provider's
string; a callback-path request whose `error` and `code` parameters are both
falsy (absent or empty) settles it with `missingAuthorizationCode`; and a
request to any other path receives a 404 response and leaves the flow state
entirely unchanged. -/
theorem claim_C6 (exchange : String → Except String OAuth2Tokens)
    (st : AuthFlowState) (req : HttpRequest) :
    (st.settled = none → req.pathname = callbackPath →
      (∀ e, req.error = some e → e ≠ "" →
        (handleAuthRequest exchange st req).1.settled =
          some (FlowOutcome.authorizationDenied e)) ∧
      (jsTruthyParam req.error = false → jsTruthyParam req.code = false →
        (handleAuthRequest exchange st req).1.settled =
          some FlowOutcome.missingAuthorizationCode)) ∧
    (req.pathname ≠ callbackPath →
      handleAuthRequest exchange st req =
        (st, ⟨404, ResponseBody.notFound⟩)) := by
  refine ⟨?_, handleAuthRequest_noncallback exchange st req⟩
  intro hnone hcb
  constructor
  · intro e he hne
    have h1 : jsTruthyParam req.error = true := by
      rw [he, jsTruthyParam]
      simpa using fun hh => hne ((String.isEmpty_iff e).mp hh)
    have h2 : outcomeOf exchange req = FlowOutcome.authorizationDenied e := by
      rw [outcomeOf, if_pos h1, he]
      rfl
    rw [handleAuthRequest_settles exchange st req hcb hnone, h2]
  · intro h1 h2
    have h3 : outcomeOf exchange req = FlowOutcome.missingAuthorizationCode := by
      rw [outcomeOf, if_neg (by simp [h1]), if_pos (by simp [h2])]
    rw [handleAuthRequest_settles exchange st req hcb hnone, h3]

/-- C6 witness: a denied callback settles the flow with the provider's error
string, and a foreign-path request is answered 404 with the state
unchanged. -/
theorem claim_C6_witness :
    (handleAuthRequest (fun _ => Except.error "x") ⟨none, false, none⟩
        ⟨callbackPath, none, some "denied"⟩).1.settled =
      some (FlowOutcome.authorizationDenied "denied") ∧
    handleAuthRequest (fun _ => Except.error "x") ⟨none, false, none⟩
        ⟨"/favicon.ico", none, none⟩ =
      (⟨none, false, none⟩, ⟨404, ResponseBody.notFound⟩) :=
  ⟨((claim_C6 (fun _ => Except.error "x") ⟨none, false, none⟩
      ⟨callbackPath, none, some "denied"⟩).1 rfl rfl).1 "denied" rfl
      (by decide),
    (claim_C6 (fun _ => Except.error "x") ⟨none, false, none⟩
      ⟨"/favicon.ico", none, none⟩).2 (by decide)⟩

/-- C7: the `startAuthFlow` promise settles exactly once.  Closing the
listener is idempotent and never settles the flow; over any sequence of
requests starting from an unsettled flow, the promise ends settled iff some
request hit the callback path, and its outcome is the one driven by the
first callback-path request (stray requests to other paths never
participate); and once settled, no later request changes the settlement. -/
theorem claim_C7 :
    (∀ st : AuthFlowState, closeListener (closeListener st) =
        closeListener st ∧
      (closeListener st).settled = st.settled) ∧
    (∀ (exchange : String → Except String OAuth2Tokens)
      (st : AuthFlowState) (reqs : List HttpRequest), st.settled = none →
      (runAuthRequests exchange st reqs).settled =
        (reqs.find? (fun r => r.pathname == callbackPath)).map
          (outcomeOf exchange)) ∧
    (∀ (exchange : String → Except String OAuth2Tokens)
      (st : AuthFlowState) (reqs : List HttpRequest) (o : FlowOutcome),
      st.settled = some o →
      (runAuthRequests exchange st reqs).settled = some o) := by
  refine ⟨fun st => ⟨rfl, rfl⟩, ?_,
    fun exchange st reqs o h => runAuthRequests_keeps_settled exchange o reqs st h⟩
  intro exchange st reqs
  induction reqs generalizing st with
  | nil => intro h; exact h
  | cons r rs ih =>
    intro h
    by_cases hcb : r.pathname = callbackPath
    · rw [List.find?_cons_of_pos _ (by simp [hcb]), Option.map_some']
      exact runAuthRequests_keeps_settled exchange _ rs _
        (handleAuthRequest_settles exchange st r hcb h)
    · rw [List.find?_cons_of_neg _ (by simp [hcb])]
      have hst := handleAuthRequest_noncallback exchange st r hcb
      show (runAuthRequests exchange (handleAuthRequest exchange st r).1
        rs).settled = _
      rw [hst]
      exact ih st h

/-- C7 witness: one valid callback followed by a stray request settles the
flow exactly once with the callback's outcome, and a double close is a
no-op. -/
theorem claim_C7_witness :
    (runAuthRequests (fun _ => Except.error "x") ⟨none, false, none⟩
        [⟨callbackPath, none, some "denied"⟩, ⟨"/other", none, none⟩]).settled =
      some (FlowOutcome.authorizationDenied "denied") ∧
    closeListener (closeListener ⟨none, true, none⟩) =
      closeListener ⟨none, true, none⟩ :=
  ⟨by
    rw [claim_C7.2.1 (fun _ => Except.error "x") ⟨none, false, none⟩
      [⟨callbackPath, none, some "denied"⟩, ⟨"/other", none, none⟩] rfl]
    rfl,
    (claim_C7.1 ⟨none, true, none⟩).1⟩

end GscMcp

